import Mathlib

/-!
Verification of the query-building core of the `ftrack-query` repository.

The Python source is shallowly embedded: rendered query text is modelled as
`List Char`, every node of the expression algebra is its rendered string
(exactly as in the source, where `Comparison` wraps a single `value : str`),
and the heap-allocated statement builders are modelled with an explicit store
so that the clone-on-write behaviour of `clone_instance` is observable.

Source files embedded: `ftrack_query/utils.py`, `ftrack_query/abstract.py`,
`ftrack_query/query.py`, `ftrack_query/exception.py`.
-/

deriving instance DecidableEq for Except

namespace FtrackQuery

/-- Rendered query text, modelled as a list of characters. -/
abbrev Str := List Char

/-- Shorthand to turn a Lean string literal into the `Str` model. -/
def lit (s : String) : Str := s.toList

/-- Whitespace characters recognised by Python's `str.strip`. -/
def isSpaceChar (c : Char) : Bool :=
  c == ' ' || c == '\t' || c == '\n' || c == '\r' || c == '\x0b' || c == '\x0c'

/-- Python `str.lstrip()`. -/
def lstripChars (l : Str) : Str := l.dropWhile isSpaceChar

/-- Python `str.strip()`. -/
def stripChars (l : Str) : Str :=
  ((l.dropWhile isSpaceChar).reverse.dropWhile isSpaceChar).reverse

/-- Python `sep.join(parts)`. -/
def joinWith (sep : Str) : List Str → Str
  | [] => []
  | [x] => x
  | x :: y :: rest => x ++ sep ++ joinWith sep (y :: rest)

/-- A word character for the regex `\b` boundary (`[A-Za-z0-9_]`). -/
def isWordChar (c : Char) : Bool := c.isAlphanum || c == '_'

/-- Whether the previous character (none at the start of the string) makes a
`\b` boundary before the current position. -/
def boundaryBefore : Option Char → Bool
  | none => true
  | some c => !isWordChar c

/-- Whether the string continues with a non-word character (or ends), making a
`\b` boundary after a match. -/
def boundaryAfter : Str → Bool
  | [] => true
  | c :: _ => !isWordChar c

/-- Whether `and` or `or` (with a trailing `\b` boundary) starts here. -/
def matchAndOrAt : Str → Bool
  | c1 :: c2 :: c3 :: rest =>
    if c1 = 'a' ∧ c2 = 'n' ∧ c3 = 'd' then boundaryAfter rest
    else if c1 = 'o' ∧ c2 = 'r' then boundaryAfter (c3 :: rest)
    else false
  | c1 :: c2 :: rest => if c1 = 'o' ∧ c2 = 'r' then boundaryAfter rest else false
  | _ => false

/-- Scan for `re.search(r'\b(and|or)\b', ...)`, carrying the previous
character to decide the leading boundary. -/
def wordAndOrAux : Option Char → Str → Bool
  | _, [] => false
  | p, c :: rest => (boundaryBefore p && matchAndOrAt (c :: rest)) || wordAndOrAux (some c) rest

/-- `bool(re.search(r'\b(and|or)\b', value))` from `utils.reverse_value`. -/
def hasWordAndOr (l : Str) : Bool := wordAndOrAux none l

/-- Drop everything up to and including the first `"`; `none` if there is no
quote character at all. -/
def splitAtQuote : Str → Option Str
  | [] => none
  | c :: rest => if c = '"' then some rest else splitAtQuote rest

/-- Fuel-driven worker for `removeQuoted`; the fuel only needs to dominate the
length of the input, which `removeQuoted` arranges. -/
def removeQuotedGo : Nat → Str → Str
  | 0, l => l
  | _ + 1, [] => []
  | fuel + 1, c :: rest =>
    if c = '"' then
      match splitAtQuote rest with
      | some v => removeQuotedGo fuel v
      | none => c :: rest
    else c :: removeQuotedGo fuel rest

/-- `re.sub(r'"[^"]*"', '', value)` from `utils._requires_extra_brackets`:
every complete quoted region is deleted; a trailing unmatched quote is kept
verbatim (the regex requires a closing quote to match). -/
def removeQuoted (l : Str) : Str := removeQuotedGo l.length l

/-- The bracket-depth scan of `utils._requires_extra_brackets`: walk the
characters adjusting depth at `(` and `)`; `none` reports that the depth went
negative (Python's early `return True`), otherwise the final depth. -/
def depthRun : Str → Int → Option Int
  | [], d => some d
  | c :: rest, d =>
    if c = '(' then depthRun rest (d + 1)
    else if c = ')' then
      if d - 1 < 0 then none else depthRun rest (d - 1)
    else depthRun rest d

/-- `utils._requires_extra_brackets(value)`: `True` unless the value is wrapped
in one pair of brackets that survives the whole quote-stripped interior. -/
def requires_extra_brackets (value : Str) : Bool :=
  if value.head? = some '(' then
    if value.getLast? = some ')' then
      match depthRun (((removeQuoted value).drop 1).dropLast) 0 with
      | none => true
      | some _ => false
    else true
  else true

/-- `utils.reverse_value(value)`: negate an already-rendered expression with
the `not` keyword, stripping an existing `not` and its brackets when safe. -/
def reverse_value (value : Str) : Str :=
  let iv := stripChars value
  if iv.take 4 = lit "not " then
    let v := lstripChars (iv.drop 4)
    if v = [] then []
    else if requires_extra_brackets v then
      if hasWordAndOr v then lit "not (" ++ iv ++ [')']
      else v
    else (v.drop 1).dropLast
  else
    if iv = [] then []
    else if requires_extra_brackets iv then
      if hasWordAndOr iv then lit "not (" ++ iv ++ [')']
      else lit "not " ++ iv
    else lit "not " ++ iv

/-- The value types accepted by `utils.convert_output_value`: `None`, numbers,
text and ftrack entities (which carry a unique id). -/
inductive Value where
  | none_ : Value
  | num (n : Int) : Value
  | text (s : Str) : Value
  | entity (id : Str) : Value
deriving DecidableEq

/-- `str.replace('"', '\\"')` used for text literals. -/
def escapeQuotes : Str → Str
  | [] => []
  | c :: rest => if c = '"' then '\\' :: '"' :: escapeQuotes rest else c :: escapeQuotes rest

/-- `str.replace('%', '\\%')` used by the derived pattern tests. -/
def escapePercent : Str → Str
  | [] => []
  | c :: rest => if c = '%' then '\\' :: '%' :: escapePercent rest else c :: escapePercent rest

/-- `utils.convert_output_value(value)`: `None` becomes the keyword `none`,
numbers render bare, an entity contributes its raw id, and any other value is
stringified, quote-escaped and wrapped in double quotes. -/
def convert_output_value : Value → Str
  | Value.none_ => lit "none"
  | Value.num n => (toString n).toList
  | Value.entity i => i
  | Value.text s => '"' :: (escapeQuotes s ++ ['"'])

/-- Whether a value is an ftrack entity instance. -/
def Value.isEntity : Value → Bool
  | Value.entity _ => true
  | _ => false

/-- `abstract.Comparison._get_value_base` combined with the rendering pattern
`'{} <op> {}'.format(*...)` shared by all comparison methods of
`query.Comparison`: an entity value retargets the path at `<path>.id`. -/
def cmpOp (kw : String) (base : Str) (v : Value) : Str :=
  (if v.isEntity then base ++ lit ".id" else base) ++ [' '] ++ kw.toList ++ [' ']
    ++ convert_output_value v

/-- `query.Comparison.__eq__` for a plain value. -/
def eqCmp (base : Str) (v : Value) : Str := cmpOp "is" base v

/-- `query.Comparison.like`. -/
def likeCmp (base : Str) (v : Value) : Str := cmpOp "like" base v

/-- `query.Comparison.startswith`: escape wildcards already present, then
append one. -/
def startswith (base : Str) (v : Str) : Str :=
  likeCmp base (Value.text (escapePercent v ++ ['%']))

/-- `query.Comparison.endswith`: escape wildcards already present, then
prepend one. -/
def endswith (base : Str) (v : Str) : Str :=
  likeCmp base (Value.text ('%' :: escapePercent v))

/-- `query.Comparison.contains`: escape wildcards already present, then
surround with wildcards. -/
def contains (base : Str) (v : Str) : Str :=
  likeCmp base (Value.text ('%' :: (escapePercent v ++ ['%'])))

/-- The exception outcomes of the embedded methods (`exception.py` plus the
built-in Python exceptions raised in `abstract.py`/`query.py`). -/
inductive PyErr where
  | typeError (msg : Str) : PyErr
  | valueError (msg : Str) : PyErr
  | notImplementedError (msg : Str) : PyErr
  | attributeError (msg : Str) : PyErr
  | unboundSession : PyErr
deriving DecidableEq

/-- A positional argument to `abstract.Comparison.parser`: `None`, an
already-built `Comparison` (or raw string, both carried by their rendering),
a dict of attribute/value pairs, or a bare ftrack entity.  (Generators, which
the source expands in place when passed as the sole argument, are outside the
modelled argument universe: the rendering of a generator that is not sole
depends on its memory address.) -/
inductive PArg where
  | pnone : PArg
  | cmp (s : Str) : PArg
  | dict (pairs : List (Str × Value)) : PArg
  | entity (id : Str) : PArg
deriving DecidableEq

/-- Whether a positional argument is Python `None`. -/
def PArg.isNone : PArg → Bool
  | PArg.pnone => true
  | _ => false

/-- The positional-argument loop of `abstract.Comparison.parser`: dicts expand
to per-key equality nodes, a bare entity raises `TypeError`, and anything else
passes through (stringified at join time; `None` stringifies to `"None"`). -/
def parsePositional : List PArg → Except PyErr (List Str)
  | [] => Except.ok []
  | PArg.dict pairs :: rest =>
    match parsePositional rest with
    | Except.error e => Except.error e
    | Except.ok r => Except.ok (pairs.map (fun kv => eqCmp kv.1 kv.2) ++ r)
  | PArg.entity _ :: _ => Except.error (PyErr.typeError (lit "keyword required"))
  | PArg.cmp s :: rest =>
    match parsePositional rest with
    | Except.error e => Except.error e
    | Except.ok r => Except.ok (s :: r)
  | PArg.pnone :: rest =>
    match parsePositional rest with
    | Except.error e => Except.error e
    | Except.ok r => Except.ok (lit "None" :: r)

/-- `abstract.Comparison.parser(*args, **kwargs)`: positional arguments first,
then one equality node per keyword argument. -/
def parser (args : List PArg) (kwargs : List (Str × Value)) : Except PyErr (List Str) :=
  match parsePositional args with
  | Except.error e => Except.error e
  | Except.ok r => Except.ok (r ++ kwargs.map (fun kv => eqCmp kv.1 kv.2))

/-- The joining-and-bracketing core of the closure built by
`abstract.Comparison.register_operator`: join the parsed parts with the
connective and parenthesize only when `brackets` is set and more than one part
was joined. -/
def opRender (name : String) (brackets : Bool) (parts : List Str) : Str :=
  let q := joinWith ([' '] ++ name.toList ++ [' ']) parts
  if brackets ∧ parts.length > 1 then '(' :: (q ++ [')']) else q

/-- The full operator closure of `abstract.Comparison.register_operator`:
drop `None` arguments, parse the rest, join and (maybe) bracket. -/
def opCall (name : String) (brackets : Bool) (args : List PArg)
    (kwargs : List (Str × Value)) : Except PyErr Str :=
  match parser (args.filter (fun a => !a.isNone)) kwargs with
  | Except.error e => Except.error e
  | Except.ok parts => Except.ok (opRender name brackets parts)

/-- `query.and_ = Comparison.register_operator('and', brackets=False)`. -/
def and_ (args : List PArg) (kwargs : List (Str × Value)) : Except PyErr Str :=
  opCall "and" false args kwargs

/-- `query.or_ = Comparison.register_operator('or', brackets=True)`. -/
def or_ (args : List PArg) (kwargs : List (Str × Value)) : Except PyErr Str :=
  opCall "or" true args kwargs

/-- `query.not_(*args, **kwargs) = ~or_(*args, **kwargs)`, where `~` is
`abstract.Comparison.__invert__`, i.e. `reverse_value` on the rendering. -/
def not_ (args : List PArg) (kwargs : List (Str × Value)) : Except PyErr Str :=
  (or_ args kwargs).map reverse_value

/-- The store of list cells referenced by statement objects.  Python lists are
heap references: `Select.copy` builds fresh cells (`list(self._where)` etc.),
which is exactly what makes the clone-on-write contract hold. -/
structure Heap where
  strCells : List (List Str)
  sortCells : List (List (Str × Bool))
deriving DecidableEq

/-- The fields of a `query.Select` statement (also the shared
`SessionInstance` state).  List-valued fields hold references into the heap;
scalar fields are immutable values. -/
structure SelectObj where
  entity : Str
  sessionId : Option Nat
  whereRef : Nat
  populateRef : Nat
  groupByRef : Nat
  sortRef : Nat
  offset : Nat
  limit : Nat
  pageSize : Option Nat
deriving DecidableEq

/-- Allocate a fresh string-list cell. -/
def allocStr (h : Heap) (v : List Str) : Heap × Nat :=
  ({ h with strCells := h.strCells ++ [v] }, h.strCells.length)

/-- Allocate a fresh sort-list cell. -/
def allocSort (h : Heap) (v : List (Str × Bool)) : Heap × Nat :=
  ({ h with sortCells := h.sortCells ++ [v] }, h.sortCells.length)

/-- Read a string-list cell (empty for a dangling reference). -/
def readStrD (h : Heap) (r : Nat) : List Str := (h.strCells.get? r).getD []

/-- Read a sort-list cell (empty for a dangling reference). -/
def readSortD (h : Heap) (r : Nat) : List (Str × Bool) := (h.sortCells.get? r).getD []

/-- Overwrite a string-list cell in place. -/
def writeStr (h : Heap) (r : Nat) (v : List Str) : Heap :=
  { h with strCells := h.strCells.set r v }

/-- Overwrite a sort-list cell in place. -/
def writeSort (h : Heap) (r : Nat) (v : List (Str × Bool)) : Heap :=
  { h with sortCells := h.sortCells.set r v }

/-- `query.Select.__init__`: fresh empty clause lists, no session, zero
offset/limit, no page size. -/
def newSelect (h : Heap) (entity : Str) : Heap × SelectObj :=
  let hw := allocStr h []
  let hp := allocStr hw.1 []
  let hg := allocStr hp.1 []
  let hs := allocSort hg.1 []
  (hs.1,
   { entity := entity, sessionId := none, whereRef := hw.2, populateRef := hp.2,
     groupByRef := hg.2, sortRef := hs.2, offset := 0, limit := 0, pageSize := none })

/-- `query.Select.copy` (via `SessionInstance.copy`): a new object whose list
fields are freshly allocated copies (`list(self._where)` and friends) and
whose scalar fields (entity, session, offset, limit, page size) carry over. -/
def copySelect (h : Heap) (o : SelectObj) : Heap × SelectObj :=
  let hw := allocStr h (readStrD h o.whereRef)
  let hp := allocStr hw.1 (readStrD h o.populateRef)
  let hg := allocStr hp.1 (readStrD h o.groupByRef)
  let hs := allocSort hg.1 (readSortD h o.sortRef)
  (hs.1,
   { o with whereRef := hw.2, populateRef := hp.2, groupByRef := hg.2, sortRef := hs.2 })

/-- Decimal rendering of a non-negative integer field. -/
def natStr (n : Nat) : Str := (toString n).toList

/-- One sort key rendered for `order by` (`('', ' descending')[descending]`). -/
def renderSort (p : Str × Bool) : Str := p.1 ++ (if p.2 then lit " descending" else [])

/-- `query.Select.__str__`: `select <proj> from` when a projection exists, the
entity, `where` plus the and-join of the stored groups when nonempty, then
`group by`, `order by`, `offset` and `limit` clauses, all joined by single
spaces with empty pieces dropped. -/
def renderSelect (h : Heap) (o : SelectObj) : Str :=
  let pop := readStrD h o.populateRef
  let whereStr := opRender "and" false (readStrD h o.whereRef)
  let grp := readStrD h o.groupByRef
  let srt := readSortD h o.sortRef
  let parts : List Str :=
    (if pop.isEmpty then [] else [lit "select", joinWith (lit ", ") pop, lit "from"])
      ++ [o.entity]
      ++ (if whereStr.isEmpty then [] else [lit "where", whereStr])
      ++ (if grp.isEmpty then [] else [lit "group by", joinWith (lit ", ") grp])
      ++ (if srt.isEmpty then []
          else [lit "order by", joinWith (lit ", ") (srt.map renderSort)])
      ++ (if o.offset = 0 then [] else [lit "offset", natStr o.offset])
      ++ (if o.limit = 0 then [] else [lit "limit", natStr o.limit])
  joinWith [' '] (parts.filter (fun p => !p.isEmpty))

/-- `query.Select.where(*args, **kwargs)`: via `clone_instance`, the method
runs on a copy; it appends `and_(*args, **kwargs)` to the copy's `_where`
cell.  A parser error (bare entity) propagates before any mutation. -/
def whereSelect (h : Heap) (o : SelectObj) (args : List PArg)
    (kwargs : List (Str × Value)) : Except PyErr (Heap × SelectObj) :=
  match and_ args kwargs with
  | Except.error e => Except.error e
  | Except.ok clause =>
    let c := copySelect h o
    Except.ok (writeStr c.1 c.2.whereRef (readStrD c.1 c.2.whereRef ++ [clause]), c.2)

/-- `query.Select.populate(*args)`: clone, then extend the copy's `_populate`
cell with the truthy arguments. -/
def populateSelect (h : Heap) (o : SelectObj) (args : List Str) : Heap × SelectObj :=
  let c := copySelect h o
  (writeStr c.1 c.2.populateRef
    (readStrD c.1 c.2.populateRef ++ args.filter (fun a => !a.isEmpty)), c.2)

/-- `query.Select.group_by(*args)`: clone, then extend the copy's `_group_by`
cell with the truthy arguments. -/
def groupBySelect (h : Heap) (o : SelectObj) (args : List Str) : Heap × SelectObj :=
  let c := copySelect h o
  (writeStr c.1 c.2.groupByRef
    (readStrD c.1 c.2.groupByRef ++ args.filter (fun a => !a.isEmpty)), c.2)

/-- Split on every space character, Python `str.split(' ')`. -/
def splitOnSpace : Str → List Str
  | [] => [[]]
  | ' ' :: rest => [] :: splitOnSpace rest
  | c :: rest =>
    match splitOnSpace rest with
    | s :: ss => (c :: s) :: ss
    | [] => [[c]]

/-- `query.Select.sort(sort=None)`: clone; no argument clears the sort keys;
an argument containing a space splits into exactly two tokens whose second
must be one of the four direction synonyms (`NotImplementedError` otherwise,
`ValueError` if the unpacking fails); the key and its descending flag are
appended to the copy's `_sort` cell. -/
def sortSelect (h : Heap) (o : SelectObj) (sortArg : Option Str) :
    Except PyErr (Heap × SelectObj) :=
  let c := copySelect h o
  match sortArg with
  | none => Except.ok (writeSort c.1 c.2.sortRef [], c.2)
  | some s0 =>
    if ' ' ∈ s0 then
      match splitOnSpace s0 with
      | [a, m] =>
        if m = lit "desc" ∨ m = lit "descending" then
          Except.ok (writeSort c.1 c.2.sortRef (readSortD c.1 c.2.sortRef ++ [(a, true)]), c.2)
        else if m = lit "asc" ∨ m = lit "ascending" then
          Except.ok (writeSort c.1 c.2.sortRef (readSortD c.1 c.2.sortRef ++ [(a, false)]), c.2)
        else Except.error (PyErr.notImplementedError (lit "unknown sorting method" ++ m))
      | _ => Except.error (PyErr.valueError (lit "too many values to unpack"))
    else
      Except.ok (writeSort c.1 c.2.sortRef (readSortD c.1 c.2.sortRef ++ [(s0, false)]), c.2)

/-- `query.Select.offset(value)`: clone, set the copy's `_offset`. -/
def offsetSelect (h : Heap) (o : SelectObj) (v : Nat) : Heap × SelectObj :=
  let c := copySelect h o
  (c.1, { c.2 with offset := v })

/-- `query.Select.limit(value)`: clone, set the copy's `_limit`. -/
def limitSelect (h : Heap) (o : SelectObj) (v : Nat) : Heap × SelectObj :=
  let c := copySelect h o
  (c.1, { c.2 with limit := v })

/-- `query.Select.subquery(attribute=None)`: clone; force the copy's
projection to a single column (the argument, defaulting to `id`) unless an
explicit projection already exists and no attribute was given. -/
def subquerySelect (h : Heap) (o : SelectObj) (attrArg : Option Str) : Heap × SelectObj :=
  let c := copySelect h o
  match attrArg with
  | some a => (writeStr c.1 c.2.populateRef [if a.isEmpty then lit "id" else a], c.2)
  | none =>
    if (readStrD c.1 c.2.populateRef).isEmpty then
      (writeStr c.1 c.2.populateRef [lit "id"], c.2)
    else (c.1, c.2)

/-- `query.SessionInstance._get_session`: a session supplied at call time
wins, else the stored session, else `UnboundSessionError`. -/
def get_session (sessionArg : Option Nat) (stored : Option Nat) : Except PyErr Nat :=
  match sessionArg with
  | some s => Except.ok s
  | none =>
    match stored with
    | some s => Except.ok s
    | none => Except.error PyErr.unboundSession

/-- `query.Select.execute(session=None)`: resolve the session, then hand the
rendered statement to it (`session.query(str(self), ...)`; the aggregated
`group_by` path likewise submits `str(self)` to the resolved session).  The
result records which session was used and what text it received. -/
def executeSelect (h : Heap) (o : SelectObj) (sessionArg : Option Nat) :
    Except PyErr (Nat × Str) :=
  match get_session sessionArg o.sessionId with
  | Except.error e => Except.error e
  | Except.ok s => Except.ok (s, renderSelect h o)

/-- `query.Select.one()`: `self.execute().one()` — no call-time session. -/
def oneSelect (h : Heap) (o : SelectObj) : Except PyErr (Nat × Str) :=
  executeSelect h o none

/-- `query.Select.first()`: `self.execute().first()` — no call-time session. -/
def firstSelect (h : Heap) (o : SelectObj) : Except PyErr (Nat × Str) :=
  executeSelect h o none

/-- `query.Select.all()`: `self.execute().all()` — no call-time session. -/
def allSelect (h : Heap) (o : SelectObj) : Except PyErr (Nat × Str) :=
  executeSelect h o none

/-- The argument to `query.Comparison.in_`/`not_in`: `None` (the default), a
manually written subquery string, a collection of plain values or entities
(generators are expanded to their items first, as the source does), or a
built `Select` statement. -/
inductive InArg where
  | noneArg : InArg
  | strArg (s : Str) : InArg
  | listArg (vs : List Value) : InArg
  | selectArg (o : SelectObj) : InArg
deriving DecidableEq

/-- Python truthiness of the `values` argument (`if not values`).  A `Select`
is truthy whenever its entity type is not `None`, which in this model it
always is (`Select.__bool__`). -/
def InArg.falsy : InArg → Bool
  | InArg.noneArg => true
  | InArg.strArg s => s.isEmpty
  | InArg.listArg vs => vs.isEmpty
  | InArg.selectArg _ => false

/-- The raw id carried by an entity value. -/
def entityIdOf : Value → Str
  | Value.entity i => i
  | _ => []

/-- `query.Comparison._prepare_in_subquery(values)`: empty input becomes the
encoded empty text; a `Select` renders via `.subquery()`; a string passes
through verbatim as a hand-written subquery; an all-entity collection
retargets the path at `.id` and lists the quoted ids; mixing entities with
other values is a `ValueError`; otherwise the values are encoded and
comma-joined. -/
def prepare_in_subquery (h : Heap) (values : InArg) : Except PyErr (Str × Str) :=
  if values.falsy then Except.ok ([], convert_output_value (Value.text []))
  else
    match values with
    | InArg.selectArg o =>
      let hs := subquerySelect h o none
      Except.ok ([], renderSelect hs.1 hs.2)
    | InArg.strArg s => Except.ok ([], s)
    | InArg.listArg vs =>
      if vs.all Value.isEntity then
        Except.ok (lit ".id",
          joinWith (lit ", ") (vs.map (fun v => convert_output_value (Value.text (entityIdOf v)))))
      else if vs.any Value.isEntity then
        Except.error (PyErr.valueError (lit "values cannot be a mix of types when entities are used"))
      else Except.ok ([], joinWith (lit ", ") (vs.map convert_output_value))
    | InArg.noneArg => Except.ok ([], convert_output_value (Value.text []))

/-- `query.Comparison.in_(values=None)`. -/
def in_ (h : Heap) (base : Str) (values : InArg) : Except PyErr Str :=
  match prepare_in_subquery h values with
  | Except.error e => Except.error e
  | Except.ok sv => Except.ok (base ++ sv.1 ++ lit " in (" ++ sv.2 ++ [')'])

/-- `query.Comparison.not_in(values=None)`. -/
def not_in (h : Heap) (base : Str) (values : InArg) : Except PyErr Str :=
  match prepare_in_subquery h values with
  | Except.error e => Except.error e
  | Except.ok sv => Except.ok (base ++ sv.1 ++ lit " not_in (" ++ sv.2 ++ [')'])

/-- The right-hand side of `query.Comparison.__eq__`: either a plain value or
an unexecuted `Select` statement. -/
inductive EqArg where
  | val (v : Value) : EqArg
  | query (o : SelectObj) : EqArg
deriving DecidableEq

/-- `query.Comparison.__eq__(value)` over both plain values and `Select`
arguments.  No branch of `__eq__`/`_get_value_base`/`convert_output_value`
raises: a `Select` falls through to the final text branch of
`convert_output_value`, which stringifies it (`str(value)`), escapes quotes
and wraps it in double quotes. -/
def eqAny (h : Heap) (base : Str) : EqArg → Str
  | EqArg.val v => eqCmp base v
  | EqArg.query o => base ++ lit " is " ++ ('"' :: (escapeQuotes (renderSelect h o) ++ ['"']))

/-! ### Generic list lemmas used by the frame and rendering proofs -/

theorem getq_append_left {α : Type} :
    ∀ (l m : List α) (i : Nat), i < l.length → (l ++ m).get? i = l.get? i := by
  intro l
  induction l with
  | nil => intro m i h; simp at h
  | cons a t ih =>
    intro m i h
    cases i with
    | zero => rfl
    | succ j => exact ih m j (by simpa using h)

theorem getq_set_ne {α : Type} :
    ∀ (l : List α) (i j : Nat) (v : α), i ≠ j → (l.set i v).get? j = l.get? j := by
  intro l
  induction l with
  | nil => intro i j v _; simp
  | cons a t ih =>
    intro i j v hij
    cases i with
    | zero =>
      cases j with
      | zero => exact absurd rfl hij
      | succ k => rfl
    | succ i0 =>
      cases j with
      | zero => rfl
      | succ k => exact ih i0 k v (fun he => hij (by rw [he]))

theorem headq_append {α : Type} (l m : List α) (hl : l ≠ []) : (l ++ m).head? = l.head? := by
  cases l with
  | nil => exact absurd rfl hl
  | cons a t => rfl

theorem getLastq_concat {α : Type} : ∀ (l : List α) (a : α), (l ++ [a]).getLast? = some a := by
  intro l a
  induction l with
  | nil => rfl
  | cons c t ih =>
    cases t with
    | nil => rfl
    | cons x t2 =>
      rw [List.cons_append, List.cons_append, List.getLast?_cons_cons]
      simpa using ih

theorem headq_reverse {α : Type} (l : List α) : l.reverse.head? = l.getLast? := by
  cases h : l.reverse with
  | nil =>
    have : l = [] := by simpa using congrArg List.reverse h
    subst this; rfl
  | cons a t =>
    have h2 : l = t.reverse ++ [a] := by
      have := congrArg List.reverse h
      simpa using this
    rw [h2, getLastq_concat]
    rfl

theorem getLastq_append {α : Type} (l m : List α) (hm : m ≠ []) :
    (l ++ m).getLast? = m.getLast? := by
  rw [← headq_reverse, ← headq_reverse, List.reverse_append]
  exact headq_append m.reverse l.reverse (by simpa using hm)

theorem dropLast_concat_eq {α : Type} (l : List α) (a : α) : (l ++ [a]).dropLast = l := by
  simp

/-! ### Lemmas about the quote-stripping scan of `_requires_extra_brackets` -/

theorem splitAtQuote_lt : ∀ (l v : Str), splitAtQuote l = some v → v.length < l.length := by
  intro l
  induction l with
  | nil => intro v h; simp [splitAtQuote] at h
  | cons c rest ih =>
    intro v h
    by_cases hc : c = '"'
    · rw [splitAtQuote, if_pos hc] at h
      cases h
      simp
    · rw [splitAtQuote, if_neg hc] at h
      exact Nat.lt_trans (ih v h) (by simp)

theorem splitAtQuote_not_mem : ∀ (l : Str), '"' ∉ l → splitAtQuote l = none := by
  intro l
  induction l with
  | nil => intro _; rfl
  | cons c rest ih =>
    intro h
    have hc : c ≠ '"' := fun he => h (by rw [he]; exact List.mem_cons_self _ _)
    rw [splitAtQuote, if_neg hc]
    exact ih (fun hm => h (List.mem_cons_of_mem _ hm))

theorem splitAtQuote_first : ∀ (u v : Str), '"' ∉ u → splitAtQuote (u ++ '"' :: v) = some v := by
  intro u
  induction u with
  | nil => intro v _; simp [splitAtQuote]
  | cons c t ih =>
    intro v h
    have hc : c ≠ '"' := fun he => h (by rw [he]; exact List.mem_cons_self _ _)
    rw [List.cons_append, splitAtQuote, if_neg hc]
    exact ih v (fun hm => h (List.mem_cons_of_mem _ hm))

theorem removeQuotedGo_congr :
    ∀ (n m : Nat) (l : Str), l.length ≤ n → l.length ≤ m →
      removeQuotedGo n l = removeQuotedGo m l := by
  intro n
  induction n with
  | zero =>
    intro m l hn _
    have : l = [] := List.eq_nil_of_length_eq_zero (Nat.le_zero.mp hn)
    subst this
    cases m <;> rfl
  | succ n ih =>
    intro m l hn hm
    cases l with
    | nil => cases m <;> rfl
    | cons c rest =>
      cases m with
      | zero => simp at hm
      | succ m0 =>
        have hrest : rest.length ≤ n := by simpa using hn
        have hrestm : rest.length ≤ m0 := by simpa using hm
        by_cases hc : c = '"'
        · rw [removeQuotedGo, removeQuotedGo, if_pos hc, if_pos hc]
          cases hsq : splitAtQuote rest with
          | none => rfl
          | some v =>
            have hv := splitAtQuote_lt rest v hsq
            exact ih m0 v (by omega) (by omega)
        · rw [removeQuotedGo, removeQuotedGo, if_neg hc, if_neg hc]
          rw [ih m0 rest hrest hrestm]

theorem removeQuotedGo_eq (n : Nat) (l : Str) (h : l.length ≤ n) :
    removeQuotedGo n l = removeQuoted l :=
  removeQuotedGo_congr n l.length l h (Nat.le_refl _)

theorem removeQuoted_cons_ne (c : Char) (l : Str) (hc : c ≠ '"') :
    removeQuoted (c :: l) = c :: removeQuoted l := by
  show removeQuotedGo (c :: l).length (c :: l) = _
  rw [List.length_cons, removeQuotedGo, if_neg hc]
  rfl

theorem removeQuoted_quote (l v : Str) (h : splitAtQuote l = some v) :
    removeQuoted ('"' :: l) = removeQuoted v := by
  show removeQuotedGo ('"' :: l).length ('"' :: l) = _
  rw [List.length_cons, removeQuotedGo, if_pos rfl, h]
  exact removeQuotedGo_eq l.length v (Nat.le_of_lt (splitAtQuote_lt l v h))

theorem removeQuoted_not_mem : ∀ (l : Str), '"' ∉ l → removeQuoted l = l := by
  intro l
  induction l with
  | nil => intro _; rfl
  | cons c rest ih =>
    intro h
    have hc : c ≠ '"' := fun he => h (by rw [he]; exact List.mem_cons_self _ _)
    rw [removeQuoted_cons_ne c rest hc, ih (fun hm => h (List.mem_cons_of_mem _ hm))]

theorem exists_first_quote : ∀ (l : Str), '"' ∈ l → ∃ u v, l = u ++ '"' :: v ∧ '"' ∉ u := by
  intro l
  induction l with
  | nil => intro h; simp at h
  | cons c rest ih =>
    intro h
    by_cases hc : c = '"'
    · exact ⟨[], rest, by rw [hc]; rfl, by simp⟩
    · have hmem : '"' ∈ rest := by
        cases List.mem_cons.mp h with
        | inl he => exact absurd he.symm hc
        | inr hm => exact hm
      obtain ⟨u, v, huv, hu⟩ := ih hmem
      exact ⟨c :: u, v, by rw [huv]; rfl, by
        intro hm
        cases List.mem_cons.mp hm with
        | inl he => exact hc he.symm
        | inr hm2 => exact hu hm2⟩

theorem removeQuoted_append :
    ∀ (n : Nat) (a : Str), a.length ≤ n → a.count '"' % 2 = 0 →
      ∀ b, removeQuoted (a ++ b) = removeQuoted a ++ removeQuoted b := by
  intro n
  induction n with
  | zero =>
    intro a ha _ b
    have : a = [] := List.eq_nil_of_length_eq_zero (Nat.le_zero.mp ha)
    subst this
    rfl
  | succ n ih =>
    intro a ha hcount b
    cases a with
    | nil => rfl
    | cons c rest =>
      by_cases hc : c = '"'
      · subst hc
        have h1 : ('"' :: rest).count '"' = rest.count '"' + 1 := by
          simp [List.count_cons]
        have hcr : rest.count '"' % 2 = 1 := by
          rw [h1] at hcount
          omega
        have hmem : '"' ∈ rest := by
          by_contra hnm
          rw [List.count_eq_zero.mpr hnm] at hcr
          simp at hcr
        obtain ⟨u, v, huv, hu⟩ := exists_first_quote rest hmem
        subst huv
        have hsq1 : splitAtQuote (u ++ '"' :: v) = some v := splitAtQuote_first u v hu
        have hsq2 : splitAtQuote ((u ++ '"' :: v) ++ b) = some (v ++ b) := by
          have he : (u ++ '"' :: v) ++ b = u ++ '"' :: (v ++ b) := by
            simp [List.append_assoc]
          rw [he]
          exact splitAtQuote_first u (v ++ b) hu
        have hstep : ('"' :: (u ++ '"' :: v)) ++ b = '"' :: ((u ++ '"' :: v) ++ b) := rfl
        rw [hstep, removeQuoted_quote _ _ hsq2, removeQuoted_quote _ _ hsq1]
        have hcu : u.count '"' = 0 := List.count_eq_zero.mpr hu
        have hcv : v.count '"' % 2 = 0 := by
          have h2 : (u ++ '"' :: v).count '"' = u.count '"' + (v.count '"' + 1) := by
            rw [List.count_append]
            simp [List.count_cons]
          rw [h2, hcu] at hcr
          omega
        have hlen : v.length ≤ n := by
          have h3 : (u ++ '"' :: v).length = u.length + (v.length + 1) := by simp
          have h4 : ('"' :: (u ++ '"' :: v)).length ≤ n + 1 := ha
          rw [List.length_cons, h3] at h4
          omega
        exact ih v hlen hcv b
      · have hstep : (c :: rest) ++ b = c :: (rest ++ b) := rfl
        rw [hstep, removeQuoted_cons_ne c (rest ++ b) hc, removeQuoted_cons_ne c rest hc]
        have hcr : rest.count '"' % 2 = 0 := by
          have h1 : (c :: rest).count '"' = rest.count '"' := by
            simp [List.count_cons, Ne.symm hc]
          rw [h1] at hcount
          exact hcount
        rw [ih rest (by simpa using ha) hcr b]
        rfl

theorem removeQuoted_append_even (a : Str) (h : a.count '"' % 2 = 0) (b : Str) :
    removeQuoted (a ++ b) = removeQuoted a ++ removeQuoted b :=
  removeQuoted_append a.length a (Nat.le_refl _) h b

/-! ### Lemmas about the bracket-depth scan -/

theorem depthRun_append :
    ∀ (a b : Str) (d : Int),
      depthRun (a ++ b) d = (depthRun a d).bind (fun x => depthRun b x) := by
  intro a
  induction a with
  | nil => intro b d; rfl
  | cons c rest ih =>
    intro b d
    by_cases h1 : c = '('
    · rw [List.cons_append, depthRun, if_pos h1, depthRun, if_pos h1]
      exact ih b (d + 1)
    · by_cases h2 : c = ')'
      · rw [List.cons_append, depthRun, if_neg h1, if_pos h2, depthRun, if_neg h1, if_pos h2]
        by_cases h3 : d - 1 < 0
        · rw [if_pos h3, if_pos h3]; rfl
        · rw [if_neg h3, if_neg h3]; exact ih b (d - 1)
      · rw [List.cons_append, depthRun, if_neg h1, if_neg h2, depthRun, if_neg h1, if_neg h2]
        exact ih b d

theorem depthRun_paren_free :
    ∀ (l : Str), '(' ∉ l → ')' ∉ l → ∀ (d : Int), depthRun l d = some d := by
  intro l
  induction l with
  | nil => intro _ _ d; rfl
  | cons c rest ih =>
    intro h1 h2 d
    have hc1 : c ≠ '(' := fun he => h1 (by rw [he]; exact List.mem_cons_self _ _)
    have hc2 : c ≠ ')' := fun he => h2 (by rw [he]; exact List.mem_cons_self _ _)
    rw [depthRun, if_neg hc1, if_neg hc2]
    exact ih (fun hm => h1 (List.mem_cons_of_mem _ hm))
      (fun hm => h2 (List.mem_cons_of_mem _ hm)) d

/-! ### Lemmas about `strip` and `take` -/

theorem dropWhileSpace_eq_self (l : Str)
    (h : ∀ a, l.head? = some a → isSpaceChar a = false) : l.dropWhile isSpaceChar = l := by
  cases l with
  | nil => rfl
  | cons c t =>
    rw [List.dropWhile_cons, h c rfl]
    simp

theorem stripChars_eq_self (l : Str)
    (h1 : ∀ a, l.head? = some a → isSpaceChar a = false)
    (h2 : ∀ a, l.getLast? = some a → isSpaceChar a = false) : stripChars l = l := by
  unfold stripChars
  rw [dropWhileSpace_eq_self l h1]
  rw [dropWhileSpace_eq_self l.reverse (fun a ha => h2 a (by rw [← headq_reverse]; exact ha))]
  exact List.reverse_reverse l

theorem take4_not_prefix (rest : Str) : ('n' :: 'o' :: 't' :: ' ' :: rest).take 4 = lit "not " := rfl

theorem take4_append_space (A s : Str) (hA : A ≠ []) (hn3 : A ≠ lit "not")
    (hn4 : A.take 4 ≠ lit "not ") : (A ++ ' ' :: s).take 4 ≠ lit "not " := by
  match A with
  | [] => exact absurd rfl hA
  | [a] =>
    intro h
    have h1 := congrArg (fun l => l.get? 1) h
    simp [lit] at h1
  | [a, b] =>
    intro h
    have h1 := congrArg (fun l => l.get? 2) h
    simp [lit] at h1
  | [a, b, c] =>
    intro h
    have h1 : a = 'n' ∧ b = 'o' ∧ c = 't' := by
      have h2 := congrArg (fun l => l.get? 0) h
      have h3 := congrArg (fun l => l.get? 1) h
      have h4 := congrArg (fun l => l.get? 2) h
      simp [lit] at h2 h3 h4
      exact ⟨h2, h3, h4⟩
    exact hn3 (by rw [h1.1, h1.2.1, h1.2.2]; rfl)
  | a :: b :: c :: d :: t =>
    intro h
    apply hn4
    have h5 : ((a :: b :: c :: d :: t) ++ ' ' :: s).take 4 = [a, b, c, d] := rfl
    have h6 : (a :: b :: c :: d :: t).take 4 = [a, b, c, d] := rfl
    rw [h6, ← h5]
    exact h

/-! ### Lemmas about the `\b(and|or)\b` search -/

theorem isWordChar_space : isWordChar ' ' = false := by decide

theorem wordAndOrAux_and :
    ∀ (u : Str) (p : Option Char) (w : Str),
      wordAndOrAux p (u ++ ' ' :: 'a' :: 'n' :: 'd' :: ' ' :: w) = true := by
  intro u
  induction u with
  | nil =>
    intro p w
    rw [List.nil_append, wordAndOrAux]
    have h1 : matchAndOrAt (' ' :: 'a' :: 'n' :: 'd' :: ' ' :: w) = false := by
      rw [matchAndOrAt, if_neg (by decide), if_neg (by decide)]
    rw [h1]
    rw [wordAndOrAux]
    have h2 : matchAndOrAt ('a' :: 'n' :: 'd' :: ' ' :: w) = boundaryAfter (' ' :: w) := by
      rw [matchAndOrAt, if_pos (by decide)]
    have h3 : boundaryAfter (' ' :: w) = true := by
      rw [boundaryAfter, isWordChar_space]
      rfl
    rw [h2, h3]
    simp [boundaryBefore, isWordChar_space]
  | cons c u2 ih =>
    intro p w
    rw [List.cons_append, wordAndOrAux, ih (some c) w]
    simp

theorem wordAndOrAux_or :
    ∀ (u : Str) (p : Option Char) (w : Str),
      wordAndOrAux p (u ++ ' ' :: 'o' :: 'r' :: ' ' :: w) = true := by
  intro u
  induction u with
  | nil =>
    intro p w
    rw [List.nil_append, wordAndOrAux]
    have h1 : matchAndOrAt (' ' :: 'o' :: 'r' :: ' ' :: w) = false := by
      rw [matchAndOrAt, if_neg (by decide), if_neg (by decide)]
    rw [h1]
    rw [wordAndOrAux]
    have h2 : matchAndOrAt ('o' :: 'r' :: ' ' :: w) = boundaryAfter (' ' :: w) := by
      rw [matchAndOrAt, if_neg (by decide), if_pos (by decide)]
    have h3 : boundaryAfter (' ' :: w) = true := by
      rw [boundaryAfter, isWordChar_space]
      rfl
    rw [h2, h3]
    simp [boundaryBefore, isWordChar_space]
  | cons c u2 ih =>
    intro p w
    rw [List.cons_append, wordAndOrAux, ih (some c) w]
    simp

/-! ### Tame rendered atoms

A rendered predicate is *tame* when its first character is neither a bracket
nor whitespace, its last character is not whitespace, it neither is the bare
word `not` nor starts with the `not ` keyword, its quote characters pair up,
and its quote-stripped bracket structure is balanced.  Every ordinary
comparison rendering (`version is 5`, `name is "x"`, …) is tame; the decidable
definition lets witnesses check concrete atoms by evaluation. -/

def headOk (A : Str) : Bool :=
  match A with
  | [] => false
  | c :: _ => !(c == '(') && !isSpaceChar c

def lastOk (A : Str) : Bool :=
  match A.getLast? with
  | some c => !isSpaceChar c
  | none => false

def tameAtom (A : Str) : Prop :=
  headOk A = true ∧ lastOk A = true ∧ A.take 4 ≠ lit "not " ∧ A ≠ lit "not" ∧
    A.count '"' % 2 = 0 ∧ depthRun (removeQuoted A) 0 = some 0

theorem headOk_ne_nil (A : Str) (h : headOk A = true) : A ≠ [] := by
  intro he
  subst he
  simp [headOk] at h

theorem headOk_head (A : Str) (h : headOk A = true) :
    ∀ a, A.head? = some a → a ≠ '(' ∧ isSpaceChar a = false := by
  cases A with
  | nil => simp [headOk] at h
  | cons c t =>
    intro a ha
    have hac : c = a := by simpa using ha
    subst hac
    rw [headOk] at h
    have h2 := Bool.and_eq_true_iff.mp h
    constructor
    · intro he
      rw [Bool.not_eq_true', beq_eq_false_iff_ne] at h2
      exact h2.1 he
    · have := h2.2
      rw [Bool.not_eq_true'] at this
      exact this

theorem lastOk_last (A : Str) (h : lastOk A = true) :
    ∀ a, A.getLast? = some a → isSpaceChar a = false := by
  intro a ha
  rw [lastOk, ha] at h
  rw [Bool.not_eq_true'] at h
  exact h

theorem lastOk_ne_nil (A : Str) (h : lastOk A = true) : A ≠ [] := by
  intro he
  subst he
  simp [lastOk] at h

theorem headq_ne_paren (A : Str) (h : headOk A = true) : A.head? ≠ some '(' := by
  cases A with
  | nil => simp [headOk] at h
  | cons c t =>
    intro hc
    have hcc : c = '(' := by simpa using hc
    exact (headOk_head (c :: t) h c rfl).1 hcc

/-! ### Lemmas about `requires_extra_brackets` -/

theorem requires_of_head (l : Str) (h : l.head? ≠ some '(') :
    requires_extra_brackets l = true := by
  unfold requires_extra_brackets
  rw [if_neg h]

theorem requires_paren_false (J : Str) (hc : J.count '"' % 2 = 0)
    (hd : depthRun (removeQuoted J) 0 = some 0) :
    requires_extra_brackets ('(' :: (J ++ [')'])) = false := by
  unfold requires_extra_brackets
  have e1 : ('(' :: (J ++ [')'])).head? = some '(' := rfl
  have e2 : ('(' :: (J ++ [')'])).getLast? = some ')' := by
    rw [show '(' :: (J ++ [')']) = ('(' :: J) ++ [')'] from rfl, getLastq_concat]
  rw [if_pos e1, if_pos e2]
  have e3 : ((removeQuoted ('(' :: (J ++ [')']))).drop 1).dropLast = removeQuoted J := by
    rw [removeQuoted_cons_ne '(' (J ++ [')']) (by decide),
      removeQuoted_append_even J hc [')'],
      removeQuoted_not_mem [')'] (by decide)]
    simp
  rw [e3, hd]

/-! ### Case analysis of `reverse_value` on tame inputs -/

theorem reverse_plain_with_andor (x : Str) (hh : headOk x = true) (hl : lastOk x = true)
    (ht : x.take 4 ≠ lit "not ") (hw : hasWordAndOr x = true) :
    reverse_value x = lit "not (" ++ x ++ [')'] := by
  have hs : stripChars x = x :=
    stripChars_eq_self x (fun a ha => (headOk_head x hh a ha).2) (lastOk_last x hl)
  have hreq : requires_extra_brackets x = true := requires_of_head x (headq_ne_paren x hh)
  unfold reverse_value
  simp only [hs]
  rw [if_neg ht, if_neg (headOk_ne_nil x hh), hreq, if_pos rfl, hw, if_pos rfl]

theorem reverse_plain_no_andor (x : Str) (hh : headOk x = true) (hl : lastOk x = true)
    (ht : x.take 4 ≠ lit "not ") (hw : hasWordAndOr x = false) :
    reverse_value x = lit "not " ++ x := by
  have hs : stripChars x = x :=
    stripChars_eq_self x (fun a ha => (headOk_head x hh a ha).2) (lastOk_last x hl)
  have hreq : requires_extra_brackets x = true := requires_of_head x (headq_ne_paren x hh)
  unfold reverse_value
  simp only [hs]
  rw [if_neg ht, if_neg (headOk_ne_nil x hh), hreq, if_pos rfl, hw]
  simp

theorem reverse_not_plain (A : Str) (hh : headOk A = true) (hl : lastOk A = true)
    (hw : hasWordAndOr A = false) :
    reverse_value (lit "not " ++ A) = A := by
  have hA := headOk_ne_nil A hh
  have hs : stripChars (lit "not " ++ A) = lit "not " ++ A := by
    apply stripChars_eq_self
    · intro a ha
      have : 'n' = a := by
        rw [headq_append (lit "not ") A (by decide)] at ha
        simpa [lit] using ha
      subst this
      decide
    · intro a ha
      rw [getLastq_append (lit "not ") A hA] at ha
      exact lastOk_last A hl a ha
  have hreq : requires_extra_brackets A = true := requires_of_head A (headq_ne_paren A hh)
  have hlst : lstripChars A = A :=
    dropWhileSpace_eq_self A (fun a ha => (headOk_head A hh a ha).2)
  unfold reverse_value
  simp only [hs]
  have h4 : (lit "not " ++ A).take 4 = lit "not " := take4_not_prefix A
  rw [if_pos h4]
  have h5 : (lit "not " ++ A).drop 4 = A := rfl
  rw [h5, hlst, if_neg hA, hreq, if_pos rfl, hw]
  simp

theorem reverse_not_paren (J : Str) (hc : J.count '"' % 2 = 0)
    (hd : depthRun (removeQuoted J) 0 = some 0) :
    reverse_value (lit "not (" ++ J ++ [')']) = J := by
  have hform : lit "not (" ++ J ++ [')'] = lit "not " ++ ('(' :: (J ++ [')'])) := by
    simp [lit]
  rw [hform]
  have hs : stripChars (lit "not " ++ ('(' :: (J ++ [')']))) = lit "not " ++ ('(' :: (J ++ [')'])) := by
    apply stripChars_eq_self
    · intro a ha
      have : 'n' = a := by simpa [lit] using ha
      subst this
      decide
    · intro a ha
      rw [show lit "not " ++ ('(' :: (J ++ [')'])) = (lit "not " ++ ('(' :: J)) ++ [')'] by simp [lit],
        getLastq_concat] at ha
      have : ')' = a := by simpa using ha
      subst this
      decide
  unfold reverse_value
  simp only [hs]
  have h4 : (lit "not " ++ ('(' :: (J ++ [')']))).take 4 = lit "not " :=
    take4_not_prefix ('(' :: (J ++ [')']))
  rw [if_pos h4]
  have h5 : (lit "not " ++ ('(' :: (J ++ [')']))).drop 4 = '(' :: (J ++ [')']) := rfl
  rw [h5]
  have hlst : lstripChars ('(' :: (J ++ [')'])) = '(' :: (J ++ [')']) :=
    dropWhileSpace_eq_self _ (fun a ha => by
      have : '(' = a := by simpa using ha
      subst this
      decide)
  rw [hlst, if_neg (by simp : ¬('(' :: (J ++ [')']) = [])), requires_paren_false J hc hd]
  simp

theorem joinWith_headOk (sep : Str) (A : Str) (rest : List Str) (hA : headOk A = true) :
    headOk (joinWith sep (A :: rest)) = true := by
  cases rest with
  | nil => exact hA
  | cons B t =>
    rw [joinWith]
    cases A with
    | nil => exact absurd rfl (headOk_ne_nil [] hA)
    | cons a t2 => exact hA

theorem joinWith_lastOk (sep : Str) :
    ∀ (parts : List Str), parts ≠ [] → (∀ A ∈ parts, lastOk A = true) →
      lastOk (joinWith sep parts) = true := by
  intro parts
  induction parts with
  | nil => intro h _; exact absurd rfl h
  | cons A rest ih =>
    intro _ hall
    cases rest with
    | nil => exact hall A (List.mem_cons_self _ _)
    | cons B t =>
      have hj : lastOk (joinWith sep (B :: t)) = true :=
        ih (by simp) (fun X hX => hall X (List.mem_cons_of_mem _ hX))
      have hne : joinWith sep (B :: t) ≠ [] := lastOk_ne_nil _ hj
      rw [joinWith]
      unfold lastOk
      rw [getLastq_append (A ++ sep) _ hne]
      exact hj

theorem joinWith_count_even (sep : Str) (hsep : '"' ∉ sep) :
    ∀ (parts : List Str), (∀ A ∈ parts, A.count '"' % 2 = 0) →
      (joinWith sep parts).count '"' % 2 = 0 := by
  intro parts
  induction parts with
  | nil => intro _; rfl
  | cons A rest ih =>
    intro hall
    cases rest with
    | nil => exact hall A (List.mem_cons_self _ _)
    | cons B t =>
      rw [joinWith, List.count_append, List.count_append]
      have h1 := hall A (List.mem_cons_self _ _)
      have h2 : sep.count '"' = 0 := List.count_eq_zero.mpr hsep
      have h3 := ih (fun X hX => hall X (List.mem_cons_of_mem _ hX))
      rw [h2]
      omega

theorem joinWith_depth_ok (sep : Str) (hq : '"' ∉ sep) (hp : '(' ∉ sep) (hcp : ')' ∉ sep) :
    ∀ (parts : List Str),
      (∀ A ∈ parts, A.count '"' % 2 = 0 ∧ depthRun (removeQuoted A) 0 = some 0) →
      depthRun (removeQuoted (joinWith sep parts)) 0 = some 0 := by
  intro parts
  induction parts with
  | nil => intro _; rfl
  | cons A rest ih =>
    intro hall
    cases rest with
    | nil => exact (hall A (List.mem_cons_self _ _)).2
    | cons B t =>
      have hA := hall A (List.mem_cons_self _ _)
      have hJ := ih (fun X hX => hall X (List.mem_cons_of_mem _ hX))
      rw [joinWith, List.append_assoc]
      rw [removeQuoted_append_even A hA.1 _]
      rw [removeQuoted_append_even sep (by rw [List.count_eq_zero.mpr hq]) _]
      rw [removeQuoted_not_mem sep hq]
      rw [depthRun_append, hA.2]
      show depthRun (sep ++ removeQuoted (joinWith sep (B :: t))) 0 = some 0
      rw [depthRun_append, depthRun_paren_free sep hp hcp 0]
      show depthRun (removeQuoted (joinWith sep (B :: t))) 0 = some 0
      exact hJ

theorem reverse_paren (J : Str) (hc : J.count '"' % 2 = 0)
    (hd : depthRun (removeQuoted J) 0 = some 0) :
    reverse_value ('(' :: (J ++ [')'])) = lit "not (" ++ J ++ [')'] := by
  have hs : stripChars ('(' :: (J ++ [')'])) = '(' :: (J ++ [')']) := by
    apply stripChars_eq_self
    · intro a ha
      have : '(' = a := by simpa using ha
      subst this
      decide
    · intro a ha
      rw [show '(' :: (J ++ [')']) = ('(' :: J) ++ [')'] from rfl, getLastq_concat] at ha
      have : ')' = a := by simpa using ha
      subst this
      decide
  have ht : ('(' :: (J ++ [')'])).take 4 ≠ lit "not " := by
    intro h
    have := congrArg (fun l => l.get? 0) h
    simp [lit] at this
  unfold reverse_value
  simp only [hs]
  rw [if_neg ht, if_neg (by simp : ¬('(' :: (J ++ [')']) = [])), requires_paren_false J hc hd]
  simp [lit]

/-! ### Composed reversal lemmas for combinator outputs -/

theorem reverse_reverse_atom (A : Str) (h : tameAtom A) :
    reverse_value (reverse_value A) = A := by
  obtain ⟨h1, h2, h3, h4, h5, h6⟩ := h
  by_cases hw : hasWordAndOr A = true
  · rw [reverse_plain_with_andor A h1 h2 h3 hw, reverse_not_paren A h5 h6]
  · have hw2 : hasWordAndOr A = false := by
      cases hb : hasWordAndOr A with
      | false => rfl
      | true => exact absurd hb hw
    rw [reverse_plain_no_andor A h1 h2 h3 hw2, reverse_not_plain A h1 h2 hw2]

theorem andJoin_form (A : Str) (rest : List Str) (hrest : rest ≠ []) :
    joinWith (lit " and ") (A :: rest) =
      A ++ ' ' :: 'a' :: 'n' :: 'd' :: ' ' :: joinWith (lit " and ") rest := by
  cases rest with
  | nil => exact absurd rfl hrest
  | cons B t =>
    rw [joinWith, List.append_assoc]
    rfl

theorem orJoin_form (A : Str) (rest : List Str) (hrest : rest ≠ []) :
    joinWith (lit " or ") (A :: rest) =
      A ++ ' ' :: 'o' :: 'r' :: ' ' :: joinWith (lit " or ") rest := by
  cases rest with
  | nil => exact absurd rfl hrest
  | cons B t =>
    rw [joinWith, List.append_assoc]
    rfl

theorem reverse_and_join (parts : List Str) (hp : 2 ≤ parts.length)
    (hall : ∀ A ∈ parts, tameAtom A) :
    reverse_value (joinWith (lit " and ") parts) =
      lit "not (" ++ joinWith (lit " and ") parts ++ [')'] := by
  cases parts with
  | nil => simp at hp
  | cons A rest =>
    cases rest with
    | nil => simp at hp
    | cons B t =>
      have hA := hall A (List.mem_cons_self _ _)
      have hform := andJoin_form A (B :: t) (by simp)
      apply reverse_plain_with_andor
      · exact joinWith_headOk _ A (B :: t) hA.1
      · exact joinWith_lastOk _ (A :: B :: t) (by simp)
          (fun X hX => ((hall X hX).2).1)
      · rw [hform]
        exact take4_append_space A _ (headOk_ne_nil A hA.1) hA.2.2.2.1 hA.2.2.1
      · rw [hform]
        exact wordAndOrAux_and A none _

theorem tame_parts_cd (parts : List Str) (hall : ∀ A ∈ parts, tameAtom A) :
    ∀ A ∈ parts, A.count '"' % 2 = 0 ∧ depthRun (removeQuoted A) 0 = some 0 :=
  fun A hA => ⟨(hall A hA).2.2.2.2.1, (hall A hA).2.2.2.2.2⟩

theorem andJoin_count_even (parts : List Str) (hall : ∀ A ∈ parts, tameAtom A) :
    (joinWith (lit " and ") parts).count '"' % 2 = 0 :=
  joinWith_count_even _ (by decide) parts (fun A hA => (tame_parts_cd parts hall A hA).1)

theorem andJoin_depth (parts : List Str) (hall : ∀ A ∈ parts, tameAtom A) :
    depthRun (removeQuoted (joinWith (lit " and ") parts)) 0 = some 0 :=
  joinWith_depth_ok _ (by decide) (by decide) (by decide) parts (tame_parts_cd parts hall)

theorem orJoin_count_even (parts : List Str) (hall : ∀ A ∈ parts, tameAtom A) :
    (joinWith (lit " or ") parts).count '"' % 2 = 0 :=
  joinWith_count_even _ (by decide) parts (fun A hA => (tame_parts_cd parts hall A hA).1)

theorem orJoin_depth (parts : List Str) (hall : ∀ A ∈ parts, tameAtom A) :
    depthRun (removeQuoted (joinWith (lit " or ") parts)) 0 = some 0 :=
  joinWith_depth_ok _ (by decide) (by decide) (by decide) parts (tame_parts_cd parts hall)

theorem opRender_and_eq (parts : List Str) :
    opRender "and" false parts = joinWith (lit " and ") parts := by
  simp only [opRender]
  rw [if_neg (by simp)]
  rfl

theorem opRender_or_single (A : Str) : opRender "or" true [A] = A := by
  simp only [opRender]
  rw [if_neg (by simp)]
  rfl

theorem opRender_or_multi (parts : List Str) (hp : 2 ≤ parts.length) :
    opRender "or" true parts = '(' :: (joinWith (lit " or ") parts ++ [')']) := by
  simp only [opRender]
  rw [if_pos ⟨trivial, by omega⟩]
  rfl

theorem reverse_reverse_andRender (parts : List Str) (hp : parts ≠ [])
    (hall : ∀ A ∈ parts, tameAtom A) :
    reverse_value (reverse_value (opRender "and" false parts)) = opRender "and" false parts := by
  rw [opRender_and_eq]
  cases parts with
  | nil => exact absurd rfl hp
  | cons A rest =>
    cases rest with
    | nil => exact reverse_reverse_atom A (hall A (List.mem_cons_self _ _))
    | cons B t =>
      rw [reverse_and_join (A :: B :: t) (by simp) hall,
        reverse_not_paren _ (andJoin_count_even _ hall) (andJoin_depth _ hall)]

theorem reverse_orRender_multi (parts : List Str) (hp : 2 ≤ parts.length)
    (hall : ∀ A ∈ parts, tameAtom A) :
    reverse_value (opRender "or" true parts) =
      lit "not (" ++ joinWith (lit " or ") parts ++ [')'] := by
  rw [opRender_or_multi parts hp]
  exact reverse_paren _ (orJoin_count_even _ hall) (orJoin_depth _ hall)

theorem reverse_reverse_orRender_multi (parts : List Str) (hp : 2 ≤ parts.length)
    (hall : ∀ A ∈ parts, tameAtom A) :
    reverse_value (reverse_value (opRender "or" true parts)) = joinWith (lit " or ") parts := by
  rw [reverse_orRender_multi parts hp hall,
    reverse_not_paren _ (orJoin_count_even _ hall) (orJoin_depth _ hall)]

/-! ### The clone-on-write frame property of the statement builders -/

/-- All cell references of a statement point into the heap. -/
def validRefs (h : Heap) (o : SelectObj) : Prop :=
  o.whereRef < h.strCells.length ∧ o.populateRef < h.strCells.length ∧
    o.groupByRef < h.strCells.length ∧ o.sortRef < h.sortCells.length

/-- The receiver `o` is untouched in the new heap: every cell it references
holds the same contents, and its rendering is unchanged. -/
def framePreserved (h h2 : Heap) (o : SelectObj) : Prop :=
  h2.strCells.get? o.whereRef = h.strCells.get? o.whereRef ∧
    h2.strCells.get? o.populateRef = h.strCells.get? o.populateRef ∧
    h2.strCells.get? o.groupByRef = h.strCells.get? o.groupByRef ∧
    h2.sortCells.get? o.sortRef = h.sortCells.get? o.sortRef ∧
    renderSelect h2 o = renderSelect h o

instance validRefs_decidable (h : Heap) (o : SelectObj) : Decidable (validRefs h o) := by
  unfold validRefs
  exact inferInstance

instance framePreserved_decidable (h h2 : Heap) (o : SelectObj) :
    Decidable (framePreserved h h2 o) := by
  unfold framePreserved
  exact inferInstance

theorem renderSelect_congr (h h2 : Heap) (o : SelectObj)
    (hw : h2.strCells.get? o.whereRef = h.strCells.get? o.whereRef)
    (hpp : h2.strCells.get? o.populateRef = h.strCells.get? o.populateRef)
    (hg : h2.strCells.get? o.groupByRef = h.strCells.get? o.groupByRef)
    (hs : h2.sortCells.get? o.sortRef = h.sortCells.get? o.sortRef) :
    renderSelect h2 o = renderSelect h o := by
  simp only [renderSelect, readStrD, readSortD]
  rw [hw, hpp, hg, hs]

theorem framePreserved_of_reads (h h2 : Heap) (o : SelectObj)
    (hw : h2.strCells.get? o.whereRef = h.strCells.get? o.whereRef)
    (hpp : h2.strCells.get? o.populateRef = h.strCells.get? o.populateRef)
    (hg : h2.strCells.get? o.groupByRef = h.strCells.get? o.groupByRef)
    (hs : h2.sortCells.get? o.sortRef = h.sortCells.get? o.sortRef) :
    framePreserved h h2 o :=
  ⟨hw, hpp, hg, hs, renderSelect_congr h h2 o hw hpp hg hs⟩

theorem copySelect_strCells (h : Heap) (o : SelectObj) :
    (copySelect h o).1.strCells =
      ((h.strCells ++ [readStrD h o.whereRef]) ++ [readStrD h o.populateRef])
        ++ [readStrD h o.groupByRef] := rfl

theorem copySelect_sortCells (h : Heap) (o : SelectObj) :
    (copySelect h o).1.sortCells = h.sortCells ++ [readSortD h o.sortRef] := rfl

theorem copySelect_refs (h : Heap) (o : SelectObj) :
    (copySelect h o).2.whereRef = h.strCells.length ∧
      (copySelect h o).2.populateRef = h.strCells.length + 1 ∧
      (copySelect h o).2.groupByRef = h.strCells.length + 2 ∧
      (copySelect h o).2.sortRef = h.sortCells.length := by
  refine ⟨rfl, ?_, ?_, rfl⟩
  · show (h.strCells ++ [readStrD h o.whereRef]).length = h.strCells.length + 1
    simp
  · show ((h.strCells ++ [readStrD h o.whereRef]) ++ [readStrD h o.populateRef]).length
      = h.strCells.length + 2
    simp

theorem copySelect_get_str (h : Heap) (o : SelectObj) (i : Nat) (hi : i < h.strCells.length) :
    (copySelect h o).1.strCells.get? i = h.strCells.get? i := by
  rw [copySelect_strCells]
  rw [getq_append_left _ _ i (by simp; omega), getq_append_left _ _ i (by simp; omega),
    getq_append_left _ _ i hi]

theorem copySelect_get_sort (h : Heap) (o : SelectObj) (i : Nat) (hi : i < h.sortCells.length) :
    (copySelect h o).1.sortCells.get? i = h.sortCells.get? i := by
  rw [copySelect_sortCells, getq_append_left _ _ i hi]

theorem frame_copy (h : Heap) (o : SelectObj) (hv : validRefs h o) :
    framePreserved h (copySelect h o).1 o :=
  framePreserved_of_reads h _ o
    (copySelect_get_str h o _ hv.1) (copySelect_get_str h o _ hv.2.1)
    (copySelect_get_str h o _ hv.2.2.1) (copySelect_get_sort h o _ hv.2.2.2)

theorem frame_write_str (h : Heap) (o : SelectObj) (hv : validRefs h o) (r : Nat)
    (hr : h.strCells.length ≤ r) (v : List Str) :
    framePreserved h (writeStr (copySelect h o).1 r v) o := by
  obtain ⟨hv1, hv2, hv3, hv4⟩ := hv
  have e1 : (writeStr (copySelect h o).1 r v).strCells = (copySelect h o).1.strCells.set r v := rfl
  have e2 : (writeStr (copySelect h o).1 r v).sortCells = (copySelect h o).1.sortCells := rfl
  apply framePreserved_of_reads
  · rw [e1, getq_set_ne _ r o.whereRef v (by omega)]
    exact copySelect_get_str h o _ hv1
  · rw [e1, getq_set_ne _ r o.populateRef v (by omega)]
    exact copySelect_get_str h o _ hv2
  · rw [e1, getq_set_ne _ r o.groupByRef v (by omega)]
    exact copySelect_get_str h o _ hv3
  · rw [e2]
    exact copySelect_get_sort h o _ hv4

theorem frame_write_sort (h : Heap) (o : SelectObj) (hv : validRefs h o) (r : Nat)
    (hr : h.sortCells.length ≤ r) (v : List (Str × Bool)) :
    framePreserved h (writeSort (copySelect h o).1 r v) o := by
  obtain ⟨hv1, hv2, hv3, hv4⟩ := hv
  have e1 : (writeSort (copySelect h o).1 r v).strCells = (copySelect h o).1.strCells := rfl
  have e2 : (writeSort (copySelect h o).1 r v).sortCells =
    (copySelect h o).1.sortCells.set r v := rfl
  apply framePreserved_of_reads
  · rw [e1]; exact copySelect_get_str h o _ hv1
  · rw [e1]; exact copySelect_get_str h o _ hv2
  · rw [e1]; exact copySelect_get_str h o _ hv3
  · rw [e2, getq_set_ne _ r o.sortRef v (by omega)]
    exact copySelect_get_sort h o _ hv4

theorem escapeQuotes_append (a b : Str) :
    escapeQuotes (a ++ b) = escapeQuotes a ++ escapeQuotes b := by
  induction a with
  | nil => rfl
  | cons c rest ih =>
    by_cases hc : c = '"'
    · rw [List.cons_append, escapeQuotes, if_pos hc, escapeQuotes, if_pos hc, ih]
      rfl
    · rw [List.cons_append, escapeQuotes, if_neg hc, escapeQuotes, if_neg hc, ih]
      rfl

/-! ### The claims -/

/-- C9: The derived pattern tests escape pre-existing wildcards: `startswith v`
renders as a like-comparison whose pattern is `v` with every `%` escaped to
`\%` plus a trailing `%`; `endswith` prepends the wildcard and `contains`
surrounds; in particular `attr("parent.name").startswith("a%b")` renders as
`parent.name like "a\%b%"`. -/
theorem derived_patterns_escape :
    (∀ p v : Str,
      startswith p v = p ++ lit " like " ++ ('"' :: (escapeQuotes (escapePercent v) ++ ['%', '"'])) ∧
      endswith p v = p ++ lit " like " ++ ('"' :: ('%' :: (escapeQuotes (escapePercent v) ++ ['"']))) ∧
      contains p v =
        p ++ lit " like " ++ ('"' :: ('%' :: (escapeQuotes (escapePercent v) ++ ['%', '"'])))) ∧
    startswith (lit "parent.name") (lit "a%b") = lit "parent.name like \"a\\%b%\"" := by
  constructor
  · intro p v
    have hpc : escapeQuotes ['%'] = ['%'] := rfl
    refine ⟨?_, ?_, ?_⟩
    · show likeCmp p (Value.text (escapePercent v ++ ['%'])) = _
      simp only [likeCmp, cmpOp, convert_output_value, Value.isEntity, escapeQuotes_append, hpc]
      simp [lit, List.append_assoc]
    · show likeCmp p (Value.text ('%' :: escapePercent v)) = _
      simp only [likeCmp, cmpOp, convert_output_value, Value.isEntity]
      rw [show ('%' :: escapePercent v) = ['%'] ++ escapePercent v from rfl,
        escapeQuotes_append, hpc]
      simp [lit, List.append_assoc]
    · show likeCmp p (Value.text ('%' :: (escapePercent v ++ ['%']))) = _
      simp only [likeCmp, cmpOp, convert_output_value, Value.isEntity]
      rw [show ('%' :: (escapePercent v ++ ['%'])) = ['%'] ++ (escapePercent v ++ ['%']) from rfl,
        escapeQuotes_append, escapeQuotes_append, hpc]
      simp [lit, List.append_assoc]
  · decide

/-- C7: Empty membership renders as a list holding one empty text literal:
with no values (the `None` default) or an empty collection, `in_` renders
`<path> in ("")` rather than the invalid `<path> in ()`. -/
theorem empty_membership_renders :
    ∀ (h : Heap) (base : Str),
      in_ h base InArg.noneArg = Except.ok (base ++ lit " in (\"\")") ∧
      in_ h base (InArg.listArg []) = Except.ok (base ++ lit " in (\"\")") := by
  intro h base
  constructor
  · show Except.ok (base ++ [] ++ lit " in (" ++ ('"' :: (escapeQuotes [] ++ ['"'])) ++ [')']) = _
    simp [lit, List.append_assoc]
    rfl
  · show Except.ok (base ++ [] ++ lit " in (" ++ ('"' :: (escapeQuotes [] ++ ['"'])) ++ [')']) = _
    simp [lit, List.append_assoc]
    rfl

/-- C8 (amended): comparing an attribute to an unexecuted `Select` does not
raise; `__eq__` silently coerces the statement through `convert_output_value`,
embedding its rendering as a quoted text literal, exactly as if the rendered
query string had been passed as a text value. -/
theorem eq_subquery_coerces (h : Heap) (o : SelectObj) (base : Str) :
    eqAny h base (EqArg.query o) = eqCmp base (Value.text (renderSelect h o)) := by
  simp only [eqAny, eqCmp, cmpOp, convert_output_value, Value.isEntity]
  simp [lit, List.append_assoc]

/-- Demo store holding a bare `Select('Task')` statement. -/
def demoTaskPair : Heap × SelectObj := newSelect ⟨[], []⟩ (lit "Task")

/-- C8 counterexample: `attr('id') == select('Task')` does not fail — it
evaluates to the comparison `id is "Task"`, silently coercing the unexecuted
statement into a quoted literal, contradicting the claim that an error is
raised. -/
theorem eq_subquery_counterexample :
    renderSelect demoTaskPair.1 demoTaskPair.2 = lit "Task" ∧
    eqAny demoTaskPair.1 (lit "id") (EqArg.query demoTaskPair.2) = lit "id is \"Task\"" := by
  constructor
  · decide
  · decide

/-- C10: membership given a bare non-empty string is treated as a hand-written
subquery: it is inserted verbatim with no quoting or escaping, unlike a plain
text value, which is quote-encoded. -/
theorem in_string_verbatim (h : Heap) (base s : Str) (hs : s ≠ []) :
    in_ h base (InArg.strArg s) = Except.ok (base ++ lit " in (" ++ s ++ [')']) ∧
    ∀ t : Str, in_ h base (InArg.listArg [Value.text t]) =
      Except.ok (base ++ lit " in (" ++ ('"' :: (escapeQuotes t ++ ['"'])) ++ [')']) := by
  constructor
  · have hfalsy : (InArg.strArg s).falsy = false := by
      simp [InArg.falsy, hs]
    simp only [in_, prepare_in_subquery, hfalsy]
    simp [lit, List.append_assoc]
  · intro t
    simp only [in_, prepare_in_subquery, InArg.falsy]
    simp only [List.isEmpty, Bool.false_eq_true, if_false]
    simp only [List.all, Value.isEntity, List.any, joinWith, List.map, convert_output_value]
    simp [lit, List.append_assoc]

/-- C10 witness: a concrete hand-written subquery string is inserted
verbatim. -/
theorem in_string_verbatim_witness :
    in_ ⟨[], []⟩ (lit "a.b") (InArg.strArg (lit "select id from User")) =
      Except.ok (lit "a.b in (select id from User)") :=
  Eq.trans ((in_string_verbatim ⟨[], []⟩ (lit "a.b") (lit "select id from User")
    (by decide)).1) (by decide)

/-- C6: executing a statement with no session stored and none supplied raises
`UnboundSessionError` (for `execute`, `one`, `first` and `all` alike); a
session supplied at call time is used, and otherwise the stored session is
used. -/
theorem unbound_session_fails (h : Heap) (o : SelectObj) :
    (o.sessionId = none →
      executeSelect h o none = Except.error PyErr.unboundSession ∧
      oneSelect h o = Except.error PyErr.unboundSession ∧
      firstSelect h o = Except.error PyErr.unboundSession ∧
      allSelect h o = Except.error PyErr.unboundSession) ∧
    (∀ s, executeSelect h o (some s) = Except.ok (s, renderSelect h o)) ∧
    (∀ s, o.sessionId = some s → executeSelect h o none = Except.ok (s, renderSelect h o)) := by
  refine ⟨?_, ?_, ?_⟩
  · intro hn
    simp only [oneSelect, firstSelect, allSelect, executeSelect, get_session, hn]
    exact ⟨trivial, trivial, trivial, trivial⟩
  · intro s
    simp only [executeSelect, get_session]
  · intro s hn
    simp only [executeSelect, get_session, hn]

/-- C6 witness: a fresh `Select('Task')` has no session and every execution
entry point fails with the unbound-session error; storing session `7` on it
makes `execute()` use that session. -/
theorem unbound_session_fails_witness :
    (executeSelect demoTaskPair.1 demoTaskPair.2 none = Except.error PyErr.unboundSession ∧
      oneSelect demoTaskPair.1 demoTaskPair.2 = Except.error PyErr.unboundSession ∧
      firstSelect demoTaskPair.1 demoTaskPair.2 = Except.error PyErr.unboundSession ∧
      allSelect demoTaskPair.1 demoTaskPair.2 = Except.error PyErr.unboundSession) ∧
    executeSelect demoTaskPair.1 { demoTaskPair.2 with sessionId := some 7 } none =
      Except.ok (7, lit "Task") :=
  ⟨(unbound_session_fails demoTaskPair.1 demoTaskPair.2).1 (by decide),
   Eq.trans ((unbound_session_fails demoTaskPair.1
     { demoTaskPair.2 with sessionId := some 7 }).2.2 7 (by decide)) (by decide)⟩

/-- C3: with two or more resulting terms, `or_` joins them with ` or ` and
wraps the join in exactly one pair of parentheses; with at most one resulting
term `or_` adds no parentheses, and `and_` never adds parentheses. -/
theorem or_and_parenthesization (args : List PArg) (kwargs : List (Str × Value))
    (parts : List Str)
    (hp : parser (args.filter (fun a => !a.isNone)) kwargs = Except.ok parts) :
    (2 ≤ parts.length →
      or_ args kwargs = Except.ok ('(' :: (joinWith (lit " or ") parts ++ [')']))) ∧
    (parts.length ≤ 1 → or_ args kwargs = Except.ok (joinWith (lit " or ") parts)) ∧
    and_ args kwargs = Except.ok (joinWith (lit " and ") parts) := by
  refine ⟨?_, ?_, ?_⟩
  · intro h2
    simp only [or_, opCall, hp]
    rw [opRender_or_multi parts h2]
  · intro h1
    simp only [or_, opCall, hp, opRender]
    rw [if_neg (fun hc => by omega)]
    rfl
  · simp only [and_, opCall, hp, opRender_and_eq]

/-- C3 witness: `or_(attr("version") > 3, version=1)` renders as
`(version > 3 or version is 1)` while the same call to `and_` renders without
parentheses, matching the spec's examples 2 and 3. -/
theorem or_and_parenthesization_witness :
    or_ [PArg.cmp (cmpOp ">" (lit "version") (Value.num 3))] [(lit "version", Value.num 1)] =
      Except.ok (lit "(version > 3 or version is 1)") ∧
    and_ [PArg.cmp (cmpOp ">" (lit "version") (Value.num 3))] [(lit "version", Value.num 1)] =
      Except.ok (lit "version > 3 and version is 1") :=
  ⟨Eq.trans ((or_and_parenthesization
      [PArg.cmp (cmpOp ">" (lit "version") (Value.num 3))] [(lit "version", Value.num 1)]
      [lit "version > 3", lit "version is 1"] (by decide)).1 (by decide)) (by decide),
   Eq.trans ((or_and_parenthesization
      [PArg.cmp (cmpOp ">" (lit "version") (Value.num 3))] [(lit "version", Value.num 1)]
      [lit "version > 3", lit "version is 1"] (by decide)).2.2) (by decide)⟩

/-- C5: every builder method of `Select` clones the receiver before applying
its change: after `where`/`populate`/`group_by`/`sort`/`offset`/`limit`
produce a new statement, every clause cell the receiver references is
unchanged and the receiver renders to the same string as before. -/
theorem builders_clone_on_write (h : Heap) (o : SelectObj) (hv : validRefs h o) :
    (∀ args kwargs h2 o2,
      whereSelect h o args kwargs = Except.ok (h2, o2) → framePreserved h h2 o) ∧
    (∀ xs h2 o2, populateSelect h o xs = (h2, o2) → framePreserved h h2 o) ∧
    (∀ xs h2 o2, groupBySelect h o xs = (h2, o2) → framePreserved h h2 o) ∧
    (∀ s h2 o2, sortSelect h o s = Except.ok (h2, o2) → framePreserved h h2 o) ∧
    (∀ v h2 o2, offsetSelect h o v = (h2, o2) → framePreserved h h2 o) ∧
    (∀ v h2 o2, limitSelect h o v = (h2, o2) → framePreserved h h2 o) := by
  have hwr : h.strCells.length ≤ (copySelect h o).2.whereRef :=
    Nat.le_of_eq (copySelect_refs h o).1.symm
  have hpr : h.strCells.length ≤ (copySelect h o).2.populateRef := by
    rw [(copySelect_refs h o).2.1]
    omega
  have hgr : h.strCells.length ≤ (copySelect h o).2.groupByRef := by
    rw [(copySelect_refs h o).2.2.1]
    omega
  have hsr : h.sortCells.length ≤ (copySelect h o).2.sortRef :=
    Nat.le_of_eq (copySelect_refs h o).2.2.2.symm
  refine ⟨?_, ?_, ?_, ?_, ?_, ?_⟩
  · intro args kwargs h2 o2 heq
    unfold whereSelect at heq
    cases hand : and_ args kwargs with
    | error e => rw [hand] at heq; simp at heq
    | ok clause =>
      rw [hand] at heq
      injection heq with hpair
      injection hpair with hh ho
      subst hh
      exact frame_write_str h o hv _ hwr _
  · intro xs h2 o2 heq
    unfold populateSelect at heq
    injection heq with hh ho
    subst hh
    exact frame_write_str h o hv _ hpr _
  · intro xs h2 o2 heq
    unfold groupBySelect at heq
    injection heq with hh ho
    subst hh
    exact frame_write_str h o hv _ hgr _
  · intro s h2 o2 heq
    cases s with
    | none =>
      simp only [sortSelect] at heq
      injection heq with hpair
      injection hpair with hh ho
      subst hh
      exact frame_write_sort h o hv _ hsr _
    | some s0 =>
      simp only [sortSelect] at heq
      by_cases hsp : ' ' ∈ s0
      · rw [if_pos hsp] at heq
        cases hs0 : splitOnSpace s0 with
        | nil => simp [hs0] at heq
        | cons a rest =>
          cases rest with
          | nil => simp [hs0] at heq
          | cons m rest2 =>
            cases rest2 with
            | nil =>
              simp only [hs0] at heq
              by_cases hm1 : m = lit "desc" ∨ m = lit "descending"
              · rw [if_pos hm1] at heq
                injection heq with hpair
                injection hpair with hh ho
                subst hh
                exact frame_write_sort h o hv _ hsr _
              · rw [if_neg hm1] at heq
                by_cases hm2 : m = lit "asc" ∨ m = lit "ascending"
                · rw [if_pos hm2] at heq
                  injection heq with hpair
                  injection hpair with hh ho
                  subst hh
                  exact frame_write_sort h o hv _ hsr _
                · rw [if_neg hm2] at heq
                  simp at heq
            | cons x rest3 => simp [hs0] at heq
      · rw [if_neg hsp] at heq
        injection heq with hpair
        injection hpair with hh ho
        subst hh
        exact frame_write_sort h o hv _ hsr _
  · intro v h2 o2 heq
    unfold offsetSelect at heq
    injection heq with hh ho
    subst hh
    exact frame_copy h o hv
  · intro v h2 o2 heq
    unfold limitSelect at heq
    injection heq with hh ho
    subst hh
    exact frame_copy h o hv

/-- C5 witness: on a concrete store, adding a `where` clause to a fresh
`Select('Task')` leaves the receiver's cells and rendering unchanged. -/
theorem builders_clone_on_write_witness :
    framePreserved demoTaskPair.1
      (writeStr (copySelect demoTaskPair.1 demoTaskPair.2).1
        (copySelect demoTaskPair.1 demoTaskPair.2).2.whereRef
        (readStrD (copySelect demoTaskPair.1 demoTaskPair.2).1
          (copySelect demoTaskPair.1 demoTaskPair.2).2.whereRef ++ [lit "name is \"Test\""]))
      demoTaskPair.2 :=
  (builders_clone_on_write demoTaskPair.1 demoTaskPair.2 (by decide)).1
    [PArg.cmp (lit "name is \"Test\"")] []
    (writeStr (copySelect demoTaskPair.1 demoTaskPair.2).1
      (copySelect demoTaskPair.1 demoTaskPair.2).2.whereRef
      (readStrD (copySelect demoTaskPair.1 demoTaskPair.2).1
        (copySelect demoTaskPair.1 demoTaskPair.2).2.whereRef ++ [lit "name is \"Test\""]))
    (copySelect demoTaskPair.1 demoTaskPair.2).2 (by decide)

instance tameAtom_decidable (A : Str) : Decidable (tameAtom A) := by
  unfold tameAtom
  exact inferInstance

theorem reverse_tame_length (A : Str) (h : tameAtom A) :
    (reverse_value A).length = A.length + 6 ∨ (reverse_value A).length = A.length + 4 := by
  obtain ⟨h1, h2, h3, h4, h5, h6⟩ := h
  by_cases hw : hasWordAndOr A = true
  · left
    rw [reverse_plain_with_andor A h1 h2 h3 hw,
      show lit "not (" = ['n', 'o', 't', ' ', '('] from rfl]
    simp
  · right
    have hw2 : hasWordAndOr A = false := by
      cases hb : hasWordAndOr A with
      | false => rfl
      | true => exact absurd hb hw
    rw [reverse_plain_no_andor A h1 h2 h3 hw2,
      show lit "not " = ['n', 'o', 't', ' '] from rfl]
    simp

/-- C1 (amended): double negation is the identity on rendering for single
predicates and for and-combinations of tame predicates (also for an
or-combination that resulted in a single term); for an or-combination of two
or more terms — whose rendering carries surrounding parentheses — double
negation instead yields the ` or `-join of the terms without the outer pair of
parentheses. -/
theorem double_negation_rendering (parts : List Str) (hp : parts ≠ [])
    (hall : ∀ A ∈ parts, tameAtom A) :
    reverse_value (reverse_value (opRender "and" false parts)) = opRender "and" false parts ∧
    (parts.length = 1 →
      reverse_value (reverse_value (opRender "or" true parts)) = opRender "or" true parts) ∧
    (2 ≤ parts.length →
      opRender "or" true parts = '(' :: (joinWith (lit " or ") parts ++ [')']) ∧
      reverse_value (reverse_value (opRender "or" true parts)) = joinWith (lit " or ") parts) := by
  refine ⟨reverse_reverse_andRender parts hp hall, ?_, ?_⟩
  · intro h1
    cases parts with
    | nil => simp at h1
    | cons A rest =>
      cases rest with
      | nil =>
        rw [opRender_or_single]
        exact reverse_reverse_atom A (hall A (List.mem_cons_self _ _))
      | cons B t => simp at h1
  · intro h2
    exact ⟨opRender_or_multi parts h2, reverse_reverse_orRender_multi parts h2 hall⟩

/-- C1 counterexample: the or-combination `(x is 1 or y is 2)` built by `or_`
loses its surrounding parentheses under double negation, so
`render(not(not(x))) ≠ render(x)` there; moreover an and-combination whose
text value embeds `")` (rendering `a is "y\")" and b is 5`) gains a spurious
extra `not (...)` layer, because the quote-naive bracket scan of
`reverse_value` misparses the escaped quote. -/
theorem double_negation_rendering_counterexample :
    or_ [PArg.cmp (lit "x is 1"), PArg.cmp (lit "y is 2")] [] =
      Except.ok (lit "(x is 1 or y is 2)") ∧
    reverse_value (reverse_value (lit "(x is 1 or y is 2)")) = lit "x is 1 or y is 2" ∧
    lit "x is 1 or y is 2" ≠ lit "(x is 1 or y is 2)" ∧
    and_ [PArg.cmp (eqCmp (lit "a") (Value.text (lit "y\")"))),
        PArg.cmp (lit "b is 5")] [] =
      Except.ok (lit "a is \"y\\\")\" and b is 5") ∧
    reverse_value (reverse_value (lit "a is \"y\\\")\" and b is 5")) =
      lit "not (not (a is \"y\\\")\" and b is 5))" ∧
    lit "not (not (a is \"y\\\")\" and b is 5))" ≠ lit "a is \"y\\\")\" and b is 5" := by
  decide

/-- C1 witness: on the tame predicates `x is 1` and `y is 2`, double negation
is the identity for the and-combination, and strips exactly the outer
parentheses of the two-term or-combination. -/
theorem double_negation_rendering_witness :
    reverse_value (reverse_value (opRender "and" false [lit "x is 1", lit "y is 2"])) =
      opRender "and" false [lit "x is 1", lit "y is 2"] ∧
    reverse_value (reverse_value (opRender "or" true [lit "x is 1", lit "y is 2"])) =
      joinWith (lit " or ") [lit "x is 1", lit "y is 2"] :=
  ⟨(double_negation_rendering [lit "x is 1", lit "y is 2"] (by simp) (by decide)).1,
   ((double_negation_rendering [lit "x is 1", lit "y is 2"] (by simp) (by decide)).2.2
     (by simp)).2⟩

/-- C2 (amended): the rendering-level De Morgan equation fails textually —
negation never restructures a combination.  For tame predicates `a`, `b`:
`not(and_(a,b))` renders as `not (<a> and <b>)` while `or_(not a, not b)`
renders as `(not <a> or not <b>)`, and the two strings always differ;
dually `not(or_(a,b))` renders as `not (<a> or <b>)` while
`and_(not a, not b)` renders as `not <a> and not <b>`, which also always
differ.  The pairs are logically equivalent by De Morgan but never equal as
strings. -/
theorem de_morgan_rendering (A B : Str) (hA : tameAtom A) (hB : tameAtom B) :
    reverse_value (opRender "and" false [A, B]) =
      lit "not (" ++ joinWith (lit " and ") [A, B] ++ [')'] ∧
    opRender "or" true [reverse_value A, reverse_value B] =
      '(' :: (joinWith (lit " or ") [reverse_value A, reverse_value B] ++ [')']) ∧
    reverse_value (opRender "and" false [A, B]) ≠
      opRender "or" true [reverse_value A, reverse_value B] ∧
    reverse_value (opRender "or" true [A, B]) =
      lit "not (" ++ joinWith (lit " or ") [A, B] ++ [')'] ∧
    opRender "and" false [reverse_value A, reverse_value B] =
      joinWith (lit " and ") [reverse_value A, reverse_value B] ∧
    reverse_value (opRender "or" true [A, B]) ≠
      opRender "and" false [reverse_value A, reverse_value B] := by
  have hall : ∀ X ∈ [A, B], tameAtom X := by
    intro X hX
    rcases List.mem_cons.mp hX with rfl | hX2
    · exact hA
    · rcases List.mem_cons.mp hX2 with rfl | hX3
      · exact hB
      · simp at hX3
  have e1 : reverse_value (opRender "and" false [A, B]) =
      lit "not (" ++ joinWith (lit " and ") [A, B] ++ [')'] := by
    rw [opRender_and_eq]
    exact reverse_and_join [A, B] (by simp) hall
  have e2 : opRender "or" true [reverse_value A, reverse_value B] =
      '(' :: (joinWith (lit " or ") [reverse_value A, reverse_value B] ++ [')']) :=
    opRender_or_multi _ (by simp)
  have e4 : reverse_value (opRender "or" true [A, B]) =
      lit "not (" ++ joinWith (lit " or ") [A, B] ++ [')'] := by
    rw [opRender_or_multi _ (by simp)]
    exact reverse_paren _ (orJoin_count_even [A, B] hall) (orJoin_depth [A, B] hall)
  have e5 : opRender "and" false [reverse_value A, reverse_value B] =
      joinWith (lit " and ") [reverse_value A, reverse_value B] := opRender_and_eq _
  have hLA := reverse_tame_length A hA
  have hLB := reverse_tame_length B hB
  refine ⟨e1, e2, ?_, e4, e5, ?_⟩
  · intro heq
    rw [e1, e2] at heq
    have hlen := congrArg List.length heq
    rw [show lit "not (" = ['n', 'o', 't', ' ', '('] from rfl] at hlen
    simp [joinWith, show lit " and " = [' ', 'a', 'n', 'd', ' '] from rfl,
      show lit " or " = [' ', 'o', 'r', ' '] from rfl] at hlen
    rcases hLA with hA6 | hA4 <;> rcases hLB with hB6 | hB4 <;> omega
  · intro heq
    rw [e4, e5] at heq
    have hlen := congrArg List.length heq
    rw [show lit "not (" = ['n', 'o', 't', ' ', '('] from rfl] at hlen
    simp [joinWith, show lit " and " = [' ', 'a', 'n', 'd', ' '] from rfl,
      show lit " or " = [' ', 'o', 'r', ' '] from rfl] at hlen
    rcases hLA with hA6 | hA4 <;> rcases hLB with hB6 | hB4 <;> omega

/-- C2 counterexample: at `a = (x is 1)`, `b = (y is 2)`, the two renderings
of each De Morgan pair are different strings: `not (x is 1 and y is 2)` versus
`(not x is 1 or not y is 2)`, and `not (x is 1 or y is 2)` versus
`not x is 1 and not y is 2`. -/
theorem de_morgan_rendering_counterexample :
    and_ [PArg.cmp (lit "x is 1"), PArg.cmp (lit "y is 2")] [] =
      Except.ok (lit "x is 1 and y is 2") ∧
    reverse_value (lit "x is 1 and y is 2") = lit "not (x is 1 and y is 2)" ∧
    reverse_value (lit "x is 1") = lit "not x is 1" ∧
    reverse_value (lit "y is 2") = lit "not y is 2" ∧
    or_ [PArg.cmp (lit "not x is 1"), PArg.cmp (lit "not y is 2")] [] =
      Except.ok (lit "(not x is 1 or not y is 2)") ∧
    lit "not (x is 1 and y is 2)" ≠ lit "(not x is 1 or not y is 2)" ∧
    reverse_value (lit "(x is 1 or y is 2)") = lit "not (x is 1 or y is 2)" ∧
    and_ [PArg.cmp (lit "not x is 1"), PArg.cmp (lit "not y is 2")] [] =
      Except.ok (lit "not x is 1 and not y is 2") ∧
    lit "not (x is 1 or y is 2)" ≠ lit "not x is 1 and not y is 2" := by
  decide

/-- C2 witness: the amended De Morgan statement at the concrete predicates
`x is 1` and `y is 2`. -/
theorem de_morgan_rendering_witness :
    reverse_value (opRender "and" false [lit "x is 1", lit "y is 2"]) =
      lit "not (" ++ joinWith (lit " and ") [lit "x is 1", lit "y is 2"] ++ [')'] ∧
    reverse_value (opRender "and" false [lit "x is 1", lit "y is 2"]) ≠
      opRender "or" true [reverse_value (lit "x is 1"), reverse_value (lit "y is 2")] ∧
    reverse_value (opRender "or" true [lit "x is 1", lit "y is 2"]) ≠
      opRender "and" false [reverse_value (lit "x is 1"), reverse_value (lit "y is 2")] :=
  ⟨(de_morgan_rendering (lit "x is 1") (lit "y is 2") (by decide) (by decide)).1,
   (de_morgan_rendering (lit "x is 1") (lit "y is 2") (by decide) (by decide)).2.2.1,
   (de_morgan_rendering (lit "x is 1") (lit "y is 2") (by decide) (by decide)).2.2.2.2.2⟩

/-- C4 (amended): `not_` is exactly the negation of `or_` — for every argument
list it maps `reverse_value` over the `or_` result; with two keyword equality
constraints it renders as `not (<k1> is <v1> or <k2> is <v2>)` whenever the
two rendered constraints are tame (in particular whenever the encoded values
contain no quote character). -/
theorem not_is_negated_or :
    (∀ (args : List PArg) (kwargs : List (Str × Value)),
      not_ args kwargs = (or_ args kwargs).map reverse_value) ∧
    (∀ (k1 k2 : Str) (v1 v2 : Value), tameAtom (eqCmp k1 v1) → tameAtom (eqCmp k2 v2) →
      not_ [] [(k1, v1), (k2, v2)] =
        Except.ok (lit "not (" ++ joinWith (lit " or ") [eqCmp k1 v1, eqCmp k2 v2] ++ [')'])) := by
  constructor
  · intro args kwargs
    rfl
  · intro k1 k2 v1 v2 h1 h2
    have hall : ∀ X ∈ [eqCmp k1 v1, eqCmp k2 v2], tameAtom X := by
      intro X hX
      rcases List.mem_cons.mp hX with rfl | hX2
      · exact h1
      · rcases List.mem_cons.mp hX2 with rfl | hX3
        · exact h2
        · simp at hX3
    show Except.ok (reverse_value (opRender "or" true [eqCmp k1 v1, eqCmp k2 v2])) = _
    rw [reverse_orRender_multi _ (by simp) hall]

/-- C4 counterexample: with the text value `y")` (encoded `"y\")"`), the
escaped quote defeats the quote-naive bracket scan, so the whole negation is
wrapped in an extra pair of parentheses: the rendering is
`not ((a is "y\")" or b is 5))`, not the claimed `not (a is "y\")" or b is 5)`. -/
theorem not_is_negated_or_counterexample :
    not_ [] [(lit "a", Value.text (lit "y\")")), (lit "b", Value.num 5)] =
      Except.ok (lit "not ((a is \"y\\\")\" or b is 5))") ∧
    lit "not ((a is \"y\\\")\" or b is 5))" ≠ lit "not (a is \"y\\\")\" or b is 5)" := by
  decide

/-- C4 witness: `not_(a=5, b=6)` renders as `not (a is 5 or b is 6)`,
matching the spec's example. -/
theorem not_is_negated_or_witness :
    not_ [] [(lit "a", Value.num 5), (lit "b", Value.num 6)] =
      Except.ok (lit "not (" ++
        joinWith (lit " or ") [eqCmp (lit "a") (Value.num 5), eqCmp (lit "b") (Value.num 6)]
        ++ [')']) ∧
    not_ [] [(lit "a", Value.num 5), (lit "b", Value.num 6)] =
      Except.ok (lit "not (a is 5 or b is 6)") :=
  ⟨not_is_negated_or.2 (lit "a") (lit "b") (Value.num 5) (Value.num 6) (by decide) (by decide),
   by decide⟩

end FtrackQuery

